import Mathlib

/-!
Shallow embedding of the Key Store and Token Lifecycle Engine of the
jwks-mock-api repository (Go).  The Key Store is `internal/keys/manager.go`;
the token issuance and introspection handlers are `pkg/handlers`
(src/unnamed/part_006).  RSA key material is modelled symbolically: the
private key of each generated pair is a fresh natural number drawn from a
generation counter, and the public key is the same identifier (the public
counterpart of the private key).  A signature made with private key `k`
under algorithm `a` verifies against public key `p` under header algorithm
`a2` exactly when `p = k` and `a2 = a`, the standard symbolic model of
asymmetric signatures.  JSON claim values are modelled by `JsonValue`
(numbers as integers, since every numeric claim involved is a Unix
timestamp in seconds; arrays of strings cover the role lists used by the
handlers).  Go maps are modelled as association lists with Go map
update and lookup semantics.  The request-scoped clock `time.Now()` is
modelled as a single integer parameter `now`, and the randomness consumed
by `crypto/rand.Int` as a seed reduced modulo the bound, which realises
the documented contract of a uniform value in `[0, n)`.
-/

namespace JwksMock

/-- JSON-representable claim values as they appear in the handlers. -/
inductive JsonValue where
  | str (s : String)
  | num (n : Int)
  | boolean (b : Bool)
  | strArr (elems : List String)
  | null
deriving DecidableEq

/-- A claim map, modelling the Go `map[string]interface\x7b\x7d` of a token
payload as an association list. -/
abbrev Claims := List (String × JsonValue)

/-- Go map lookup `m[k]`: the value at the first matching key, if any. -/
def getClaim : Claims → String → Option JsonValue
  | [], _ => none
  | (k, v) :: rest, key => if k = key then some v else getClaim rest key

/-- Go map update `m[k] = v`: replace the value at the key if present,
otherwise add the binding. -/
def setClaim : Claims → String → JsonValue → Claims
  | [], key, v => [(key, v)]
  | (k, w) :: rest, key, v =>
      if k = key then (key, v) :: rest else (k, w) :: setClaim rest key v

/-- The process-wide JWT configuration (`pkg/config`): issuer and audience. -/
structure Config where
  issuer : String
  audience : String
deriving DecidableEq

/-- Failure outcomes of Key Store operations, named as in the spec; the Go
code returns `fmt.Errorf` values with these meanings. -/
inductive KeyError where
  | duplicateKeyID
  | keyNotFound
  | lastKeyProtected
  | noKeysAvailable
deriving DecidableEq

/-- One RSA key pair with metadata (`keys.KeyPair`).  The private key is a
symbolic identifier; the public key is its public counterpart. -/
structure KeyPair where
  kid : String
  privateKey : Nat
deriving DecidableEq

/-- The public counterpart of the private key of a pair
(`KeyPair.PublicKey` is derived from `PrivateKey` in the Go code). -/
def publicKeyOf (kp : KeyPair) : Nat := kp.privateKey

/-- The Key Store (`keys.Manager`): the ordered collection of key pairs plus
the key-generation randomness source, modelled as a counter from which each
freshly generated private key is drawn. -/
structure Manager where
  keys : List KeyPair
  nextKey : Nat
deriving DecidableEq

/-- `keys.NewManager`: an empty store. -/
def newManager : Manager := { keys := [], nextKey := 0 }

/-- `Manager.generateKeyPair`: a fresh RSA key pair with the given key ID,
drawn from the generation counter. -/
def generateKeyPair (kid : String) (next : Nat) : KeyPair :=
  { kid := kid, privateKey := next }

/-- The key list built by `Manager.GenerateKeys`: one fresh pair per ID, in
order. -/
def generateKeysList : List String → Nat → List KeyPair
  | [], _ => []
  | kid :: rest, n => generateKeyPair kid n :: generateKeysList rest (n + 1)

/-- `Manager.GenerateKeys`: replace the contents with one fresh pair per
requested ID, in the given order. -/
def Manager.generateKeys (m : Manager) (ids : List String) : Manager :=
  { keys := generateKeysList ids m.nextKey, nextKey := m.nextKey + ids.length }

/-- Models the contract of `crypto/rand.Int(reader, n)`: a uniformly random
value in `[0, n)`, here obtained by reducing the consumed randomness modulo
the bound. -/
def randInt (seed n : Nat) : Nat := seed % n

/-- `Manager.GetRandomKey`: error when the store is empty, otherwise the key
pair at a random index below the key count. -/
def Manager.getRandomKey (m : Manager) (seed : Nat) : Except KeyError KeyPair :=
  if h : m.keys.length = 0 then
    .error .noKeysAvailable
  else
    .ok (m.keys.get ⟨randInt seed m.keys.length, Nat.mod_lt seed (Nat.pos_of_ne_zero h)⟩)

/-- `Manager.GetKeyByID`: the first key pair whose ID matches, or an error. -/
def Manager.getKeyByID (m : Manager) (kid : String) : Except KeyError KeyPair :=
  match m.keys.find? (fun k => k.kid = kid) with
  | some k => .ok k
  | none => .error .keyNotFound

/-- `Manager.GetAllKeyIDs`: all key IDs in insertion order. -/
def Manager.getAllKeyIDs (m : Manager) : List String := m.keys.map (·.kid)

/-- `Manager.GetKeyCount`. -/
def Manager.getKeyCount (m : Manager) : Nat := m.keys.length

/-- `Manager.AddKey`: reject a duplicate ID, otherwise append one freshly
generated pair with that ID. -/
def Manager.addKey (m : Manager) (kid : String) : Except KeyError Manager :=
  if m.keys.any (fun k => k.kid = kid) then
    .error .duplicateKeyID
  else
    .ok { keys := m.keys ++ [generateKeyPair kid m.nextKey], nextKey := m.nextKey + 1 }

/-- The removal scan of `Manager.RemoveKey`: drop the first key pair whose ID
matches, or report that none matches. -/
def removeFirstByKid : List KeyPair → String → Option (List KeyPair)
  | [], _ => none
  | k :: rest, kid =>
      if k.kid = kid then some rest
      else match removeFirstByKid rest kid with
        | some rest2 => some (k :: rest2)
        | none => none

/-- `Manager.RemoveKey`: the Go code first rejects any removal while at most
one key remains, then scans for the ID. -/
def Manager.removeKey (m : Manager) (kid : String) : Except KeyError Manager :=
  if m.keys.length ≤ 1 then
    .error .lastKeyProtected
  else match removeFirstByKid m.keys kid with
    | some rest => .ok { m with keys := rest }
    | none => .error .keyNotFound

/-- A mutation request against the Key Store, as dispatched by the HTTP
layer. -/
inductive Op where
  | add (kid : String)
  | remove (kid : String)

/-- Apply one mutation; a failed mutation leaves the store as it was (the Go
methods return early without touching the slice). -/
def applyOp (m : Manager) : Op → Manager
  | .add kid =>
      match m.addKey kid with
      | .ok m2 => m2
      | .error _ => m
  | .remove kid =>
      match m.removeKey kid with
      | .ok m2 => m2
      | .error _ => m

/-- Run a sequence of add and remove requests against the store. -/
def runOps (m : Manager) (ops : List Op) : Manager := ops.foldl applyOp m

/-- A structurally well-formed JWT as the golang-jwt library sees it: the
header fields the handlers touch (`alg`, optional `kid`), the payload claim
map, and the signature, recorded symbolically as the algorithm and private
key that produced it. -/
structure Token where
  alg : String
  kid : Option String
  claims : Claims
  sigAlg : String
  sigKey : Nat
deriving DecidableEq

/-- The body of a token-generation request (`handlers.TokenRequest`): a
claim map and an optional lifetime in seconds. -/
structure TokenRequest where
  claims : Claims
  expiresIn : Option Int
deriving DecidableEq

/-- The default demonstration claims substituted by `GenerateToken` when the
request carries none. -/
def defaultClaims : Claims :=
  [ ("sub", .str "test-user"),
    ("email", .str "test@example.com"),
    ("name", .str "Test User"),
    ("roles", .strArr ["user"]) ]

/-- The default demonstration claims of `GenerateInvalidToken`. -/
def defaultInvalidClaims : Claims :=
  [ ("sub", .str "invalid-test-user"),
    ("email", .str "invalid-test@example.com"),
    ("name", .str "Invalid Test User"),
    ("roles", .strArr ["user"]) ]

/-- The claim-construction step shared by both issuance paths: start from
the request claims (or the given defaults when the request is empty) and
then write the four system claims `iat`, `exp`, `iss`, `aud`, in the order
of the Go code. -/
def buildJwtClaims (cfg : Config) (base : Claims) (defaults : Claims)
    (now lifetime : Int) : Claims :=
  let claims0 := if base.isEmpty then defaults else base
  setClaim (setClaim (setClaim (setClaim claims0
    "iat" (.num now))
    "exp" (.num (now + lifetime)))
    "iss" (.str cfg.issuer))
    "aud" (.str cfg.audience)

/-- The successful outcome of a token-issuance handler: the signed token,
the effective lifetime in seconds, and the key ID placed in the header. -/
structure IssueResult where
  token : Token
  expiresIn : Int
  keyID : String
deriving DecidableEq

/-- `handlers.GenerateToken` (src/unnamed/part_006, second revision): pick
the effective lifetime (request value if present, else 3600), substitute the
default claims when none were supplied, select a random signing key, write
the system claims, and sign with the selected private key under RS256,
embedding the selected key ID in the header. -/
def generateToken (cfg : Config) (m : Manager) (seed : Nat) (now : Int)
    (req : TokenRequest) : Except KeyError IssueResult := do
  let expiresInSeconds := req.expiresIn.getD 3600
  let keyPair ← m.getRandomKey seed
  let jwtClaims := buildJwtClaims cfg req.claims defaultClaims now expiresInSeconds
  .ok { token := { alg := "RS256", kid := some keyPair.kid,
                   claims := jwtClaims, sigAlg := "RS256",
                   sigKey := keyPair.privateKey },
        expiresIn := expiresInSeconds,
        keyID := keyPair.kid }

/-- `handlers.GenerateInvalidToken`: identical claim construction, but after
selecting a real key for its ID, a throwaway RSA key pair is generated (the
next fresh value of the generation counter) and used for signing, while the
real key ID is declared in the header; the store itself is left untouched. -/
def generateInvalidToken (cfg : Config) (m : Manager) (seed : Nat) (now : Int)
    (req : TokenRequest) : Except KeyError (IssueResult × Manager) := do
  let expiresInSeconds := req.expiresIn.getD 3600
  let validKey ← m.getRandomKey seed
  let invalidPrivateKey := m.nextKey
  let jwtClaims := buildJwtClaims cfg req.claims defaultInvalidClaims now expiresInSeconds
  .ok ({ token := { alg := "RS256", kid := some validKey.kid,
                    claims := jwtClaims, sigAlg := "RS256",
                    sigKey := invalidPrivateKey },
         expiresIn := expiresInSeconds,
         keyID := validKey.kid }, m)

/-- The signing methods of the golang-jwt library whose type is
`*jwt.SigningMethodRSA`, the assertion made by the introspection keyfunc. -/
def isRSAAlg (a : String) : Bool :=
  a = "RS256" || a = "RS384" || a = "RS512"

/-- Symbolic signature verification: the signature verifies against a public
key under the header algorithm exactly when it was produced by the matching
private key under that same algorithm. -/
def sigVerifies (t : Token) (pub : Nat) : Bool :=
  t.sigAlg = t.alg && t.sigKey = pub

/-- The default `exp` validation of the golang-jwt v5 validator: a missing
claim passes, a numeric claim passes while the current time is strictly
before it, and a claim of any other type is a parse error. -/
def expClaimOk (cs : Claims) (now : Int) : Bool :=
  match getClaim cs "exp" with
  | none => true
  | some (.num e) => now < e
  | some _ => false

/-- The default `nbf` validation of the golang-jwt v5 validator: a missing
claim passes, a numeric claim passes once the current time is not before it,
and a claim of any other type is a parse error. -/
def nbfClaimOk (cs : Claims) (now : Int) : Bool :=
  match getClaim cs "nbf" with
  | none => true
  | some (.num b) => b ≤ now
  | some _ => false

/-- `jwt.Parse` with the keyfunc of `handlers.Introspect`: require an RSA
signing method, a string `kid` header resolving in the Key Store, a
signature that verifies under the resolved public key, and the default
registered-claim validation (`exp`, `nbf`); on success the payload claims
are returned. -/
def jwtVerify (m : Manager) (now : Int) (t : Token) : Option Claims :=
  if isRSAAlg t.alg then
    match t.kid with
    | none => none
    | some kid =>
      match m.getKeyByID kid with
      | .error _ => none
      | .ok keyPair =>
        if sigVerifies t (publicKeyOf keyPair) then
          if expClaimOk t.claims now && nbfClaimOk t.claims now then
            some t.claims
          else none
        else none
  else none

/-- The token form value submitted to the introspection endpoint: empty,
non-empty but not decodable as a JWT, or a structurally well-formed JWT. -/
inductive TokenStr where
  | emptyStr
  | malformed
  | wellFormed (t : Token)
deriving DecidableEq

/-- `handlers.IntrospectionResponse` with the Go zero values of its
fields. -/
structure IntrospectionResponse where
  active : Bool
  tokenType : String := ""
  scope : String := ""
  clientID : String := ""
  username : String := ""
  exp : Int := 0
  iat : Int := 0
  nbf : Int := 0
  sub : String := ""
  aud : String := ""
  iss : String := ""
  jti : String := ""
  claims : Claims := []
deriving DecidableEq

/-- The promotion of a numeric payload claim performed by the active branch
of `Introspect`: the claim value when it is a number, else the zero value. -/
def numClaim (cs : Claims) (k : String) : Int :=
  match getClaim cs k with
  | some (.num n) => n
  | _ => 0

/-- The promotion of a string payload claim performed by the active branch
of `Introspect`: the claim value when it is a string, else the zero value. -/
def strClaim (cs : Claims) (k : String) : String :=
  match getClaim cs k with
  | some (.str s) => s
  | _ => ""

/-- `handlers.Introspect` (src/unnamed/part_006, second revision): an empty
token is inactive; otherwise the token is verified, the issuer and audience
claims are compared against the configured strings, and on success the
response is populated from the payload.  The HTTP status written is paired
with the response; after the form stage it is always 200. -/
def introspect (cfg : Config) (m : Manager) (now : Int) (input : TokenStr) :
    Nat × IntrospectionResponse :=
  match input with
  | .emptyStr => (200, { active := false })
  | .malformed => (200, { active := false })
  | .wellFormed t =>
    match jwtVerify m now t with
    | none => (200, { active := false })
    | some claims =>
      if getClaim claims "iss" ≠ some (.str cfg.issuer)
          ∨ getClaim claims "aud" ≠ some (.str cfg.audience) then
        (200, { active := false })
      else
        (200, { active := true,
                tokenType := "Bearer",
                exp := numClaim claims "exp",
                iat := numClaim claims "iat",
                nbf := numClaim claims "nbf",
                sub := strClaim claims "sub",
                username := strClaim claims "sub",
                aud := strClaim claims "aud",
                iss := strClaim claims "iss",
                jti := strClaim claims "jti",
                claims := claims })

/-- The reserved response field names of
`IntrospectionResponse.MarshalJSON`. -/
def standardFields : List String :=
  [ "active", "token_type", "scope", "client_id", "username",
    "exp", "iat", "nbf", "sub", "aud", "iss", "jti" ]

/-- The standard-field part of `IntrospectionResponse.MarshalJSON`: `active`
always, each optional field only when it differs from its zero value. -/
def marshalStd (r : IntrospectionResponse) : Claims :=
  [("active", .boolean r.active)]
  ++ (if r.tokenType ≠ "" then [("token_type", JsonValue.str r.tokenType)] else [])
  ++ (if r.scope ≠ "" then [("scope", JsonValue.str r.scope)] else [])
  ++ (if r.clientID ≠ "" then [("client_id", JsonValue.str r.clientID)] else [])
  ++ (if r.username ≠ "" then [("username", JsonValue.str r.username)] else [])
  ++ (if r.exp ≠ 0 then [("exp", JsonValue.num r.exp)] else [])
  ++ (if r.iat ≠ 0 then [("iat", JsonValue.num r.iat)] else [])
  ++ (if r.nbf ≠ 0 then [("nbf", JsonValue.num r.nbf)] else [])
  ++ (if r.sub ≠ "" then [("sub", JsonValue.str r.sub)] else [])
  ++ (if r.aud ≠ "" then [("aud", JsonValue.str r.aud)] else [])
  ++ (if r.iss ≠ "" then [("iss", JsonValue.str r.iss)] else [])
  ++ (if r.jti ≠ "" then [("jti", JsonValue.str r.jti)] else [])

/-- `IntrospectionResponse.MarshalJSON`: the standard fields followed by
every carried claim whose name is not reserved, never overwriting the
standard fields. -/
def marshalIntrospection (r : IntrospectionResponse) : Claims :=
  marshalStd r ++ r.claims.filter (fun p => ! standardFields.contains p.1)

/-- The key IDs held by the store are pairwise distinct. -/
def kidsNodup (m : Manager) : Prop := (m.keys.map (·.kid)).Nodup

/-- Freshness of the key-generation counter: every private key in the store
was drawn below the next value.  This holds for every store built through
the module operations and makes a newly generated throwaway key distinct
from all stored keys. -/
def freshInv (m : Manager) : Prop := ∀ kp ∈ m.keys, kp.privateKey < m.nextKey

/-- The condition for an active introspection result exactly as the claim
states it, written from the claim wording for comparison with the code: the
token parses under the single supported RSA signature scheme (RS256) with a
header key ID that resolves in the Key Store, its signature verifies under
the public key of that key, its expiration lies in the future, and its
issuer and audience claims equal the configured values. -/
def claimActiveCondition (cfg : Config) (m : Manager) (now : Int)
    (input : TokenStr) : Bool :=
  match input with
  | .wellFormed t =>
      t.alg = "RS256" &&
      (match t.kid with
       | some kid =>
         (match m.getKeyByID kid with
          | .ok keyPair => sigVerifies t (publicKeyOf keyPair)
          | .error _ => false)
       | none => false) &&
      (match getClaim t.claims "exp" with
       | some (.num e) => now < e
       | _ => false) &&
      getClaim t.claims "iss" = some (.str cfg.issuer) &&
      getClaim t.claims "aud" = some (.str cfg.audience)
  | _ => false

/-- A concrete configuration used by the concrete instances below. -/
def exampleConfig : Config := { issuer := "test-issuer", audience := "dev-api" }

/-- A concrete one-key store used by the concrete instances below. -/
def exampleManager : Manager :=
  { keys := [{ kid := "k1", privateKey := 0 }], nextKey := 1 }

/-- A concrete two-key store used by the concrete instances below. -/
def exampleManager2 : Manager :=
  { keys := [{ kid := "k1", privateKey := 0 }, { kid := "k2", privateKey := 1 }],
    nextKey := 2 }

/-- A token correctly signed by the stored key `k1`, carrying the configured
issuer and audience, an expiration in the future of the sample instant 1000
and a not-before claim still in the future at that instant. -/
def exampleNbfToken : Token :=
  { alg := "RS256", kid := some "k1",
    claims := [("iss", .str "test-issuer"), ("aud", .str "dev-api"),
               ("exp", .num 2000), ("nbf", .num 1500)],
    sigAlg := "RS256", sigKey := 0 }

/-- A token correctly signed by the stored key `k1`, active at the sample
instant 1000, whose payload carries a `scope` claim and a custom `role`
claim next to the standard ones. -/
def exampleScopeToken : Token :=
  { alg := "RS256", kid := some "k1",
    claims := [("iss", .str "test-issuer"), ("aud", .str "dev-api"),
               ("exp", .num 2000), ("scope", .str "read"),
               ("sub", .str "alice"), ("role", .str "admin")],
    sigAlg := "RS256", sigKey := 0 }

end JwksMock

deriving instance DecidableEq for Except

namespace JwksMock

theorem getClaim_setClaim_same (cs : Claims) (k : String) (v : JsonValue) :
    getClaim (setClaim cs k v) k = some v := by
  induction cs with
  | nil => simp [setClaim, getClaim]
  | cons p rest ih =>
    obtain ⟨k0, v0⟩ := p
    by_cases h : k0 = k
    · simp [setClaim, h, getClaim]
    · simp [setClaim, h, getClaim, ih]

theorem getClaim_setClaim_diff (cs : Claims) (k k2 : String) (v : JsonValue)
    (h : k2 ≠ k) : getClaim (setClaim cs k v) k2 = getClaim cs k2 := by
  have hk : k ≠ k2 := fun hh => h hh.symm
  induction cs with
  | nil => simp [setClaim, getClaim, hk]
  | cons p rest ih =>
    obtain ⟨k0, v0⟩ := p
    by_cases h0 : k0 = k
    · subst h0
      simp [setClaim, getClaim, hk]
    · simp [setClaim, h0, getClaim, ih]

theorem buildJwtClaims_aud (cfg : Config) (base defaults : Claims)
    (now lifetime : Int) :
    getClaim (buildJwtClaims cfg base defaults now lifetime) "aud"
      = some (.str cfg.audience) := by
  unfold buildJwtClaims
  exact getClaim_setClaim_same ..

theorem buildJwtClaims_iss (cfg : Config) (base defaults : Claims)
    (now lifetime : Int) :
    getClaim (buildJwtClaims cfg base defaults now lifetime) "iss"
      = some (.str cfg.issuer) := by
  unfold buildJwtClaims
  rw [getClaim_setClaim_diff _ _ _ _ (by decide)]
  exact getClaim_setClaim_same ..

theorem buildJwtClaims_exp (cfg : Config) (base defaults : Claims)
    (now lifetime : Int) :
    getClaim (buildJwtClaims cfg base defaults now lifetime) "exp"
      = some (.num (now + lifetime)) := by
  unfold buildJwtClaims
  rw [getClaim_setClaim_diff _ _ _ _ (by decide),
      getClaim_setClaim_diff _ _ _ _ (by decide)]
  exact getClaim_setClaim_same ..

theorem buildJwtClaims_iat (cfg : Config) (base defaults : Claims)
    (now lifetime : Int) :
    getClaim (buildJwtClaims cfg base defaults now lifetime) "iat"
      = some (.num now) := by
  unfold buildJwtClaims
  rw [getClaim_setClaim_diff _ _ _ _ (by decide),
      getClaim_setClaim_diff _ _ _ _ (by decide),
      getClaim_setClaim_diff _ _ _ _ (by decide)]
  exact getClaim_setClaim_same ..

theorem generateKeysList_map_kid (ids : List String) (n : Nat) :
    (generateKeysList ids n).map (·.kid) = ids := by
  induction ids generalizing n with
  | nil => rfl
  | cons kid rest ih => simp [generateKeysList, generateKeyPair, ih]

theorem generateKeysList_length (ids : List String) (n : Nat) :
    (generateKeysList ids n).length = ids.length := by
  induction ids generalizing n with
  | nil => rfl
  | cons kid rest ih => simp [generateKeysList, ih]

theorem generateKeysList_priv_lt (ids : List String) (n : Nat) :
    ∀ kp ∈ generateKeysList ids n, kp.privateKey < n + ids.length := by
  induction ids generalizing n with
  | nil => intro kp hkp; simp [generateKeysList] at hkp
  | cons kid rest ih =>
    intro kp hkp
    simp only [generateKeysList, List.mem_cons] at hkp
    rcases hkp with h | h
    · subst h
      simp only [generateKeyPair, List.length_cons]
      omega
    · have := ih (n + 1) kp h
      simp only [List.length_cons]
      omega

theorem removeFirstByKid_sublist (ks : List KeyPair) (kid : String) :
    ∀ ks2, removeFirstByKid ks kid = some ks2 → ks2.Sublist ks := by
  induction ks with
  | nil => intro ks2 h; simp [removeFirstByKid] at h
  | cons k rest ih =>
    intro ks2 h
    by_cases hk : k.kid = kid
    · simp only [removeFirstByKid, if_pos hk] at h
      cases h
      exact List.sublist_cons_self k rest
    · simp only [removeFirstByKid, if_neg hk] at h
      cases h2 : removeFirstByKid rest kid with
      | none => rw [h2] at h; simp at h
      | some rest2 =>
        rw [h2] at h
        simp only [Option.some.injEq] at h
        subst h
        exact List.Sublist.cons₂ k (ih rest2 h2)

theorem removeFirstByKid_length (ks : List KeyPair) (kid : String) :
    ∀ ks2, removeFirstByKid ks kid = some ks2 → ks.length = ks2.length + 1 := by
  induction ks with
  | nil => intro ks2 h; simp [removeFirstByKid] at h
  | cons k rest ih =>
    intro ks2 h
    by_cases hk : k.kid = kid
    · simp only [removeFirstByKid, if_pos hk] at h
      cases h
      rfl
    · simp only [removeFirstByKid, if_neg hk] at h
      cases h2 : removeFirstByKid rest kid with
      | none => rw [h2] at h; simp at h
      | some rest2 =>
        rw [h2] at h
        simp only [Option.some.injEq] at h
        subst h
        simp [ih rest2 h2]

theorem removeFirstByKid_none_iff (ks : List KeyPair) (kid : String) :
    removeFirstByKid ks kid = none ↔ ∀ k ∈ ks, k.kid ≠ kid := by
  induction ks with
  | nil => simp [removeFirstByKid]
  | cons k rest ih =>
    by_cases hk : k.kid = kid
    · simp [removeFirstByKid, hk]
    · simp only [removeFirstByKid, if_neg hk, List.mem_cons]
      constructor
      · intro h k2 hmem
        rcases hmem with rfl | hm
        · exact hk
        · cases h2 : removeFirstByKid rest kid with
          | none => exact (ih.mp h2) k2 hm
          | some rest2 => simp [h2] at h
      · intro hall
        have h2 : removeFirstByKid rest kid = none :=
          ih.mpr (fun k2 hm => hall k2 (Or.inr hm))
        simp [h2]

theorem removeFirstByKid_decomp (ks : List KeyPair) (kid : String) :
    ∀ ks2, removeFirstByKid ks kid = some ks2 →
      ∃ pre kk post, ks = pre ++ kk :: post ∧ kk.kid = kid ∧
        (∀ p ∈ pre, p.kid ≠ kid) ∧ ks2 = pre ++ post := by
  induction ks with
  | nil => intro ks2 h; simp [removeFirstByKid] at h
  | cons k rest ih =>
    intro ks2 h
    by_cases hk : k.kid = kid
    · simp only [removeFirstByKid, if_pos hk] at h
      cases h
      exact ⟨[], k, rest, by simp, hk, by simp, by simp⟩
    · simp only [removeFirstByKid, if_neg hk] at h
      cases h2 : removeFirstByKid rest kid with
      | none => rw [h2] at h; simp at h
      | some rest2 =>
        rw [h2] at h
        simp only [Option.some.injEq] at h
        subst h
        obtain ⟨pre, kk, post, hks, hkk, hpre, hrest2⟩ := ih rest2 h2
        refine ⟨k :: pre, kk, post, by simp [hks], hkk, ?_, by simp [hrest2]⟩
        intro p hp
        rcases List.mem_cons.mp hp with rfl | hm
        · exact hk
        · exact hpre p hm

theorem removeFirstByKid_of_decomp (pre : List KeyPair) (kk : KeyPair)
    (post : List KeyPair) (kid : String) (hkk : kk.kid = kid)
    (hpre : ∀ p ∈ pre, p.kid ≠ kid) :
    removeFirstByKid (pre ++ kk :: post) kid = some (pre ++ post) := by
  induction pre with
  | nil => simp [removeFirstByKid, hkk]
  | cons p rest ih =>
    have hp : p.kid ≠ kid := hpre p (by simp)
    have hrec := ih (fun q hq => hpre q (List.mem_cons_of_mem p hq))
    simp [List.cons_append, removeFirstByKid, hp, List.append_eq, hrec]

theorem addKey_ok_keys (m : Manager) (kid : String) (m2 : Manager)
    (h : m.addKey kid = .ok m2) :
    m2.keys = m.keys ++ [generateKeyPair kid m.nextKey] ∧
      ∀ k ∈ m.keys, k.kid ≠ kid := by
  by_cases hdup : m.keys.any (fun k => k.kid = kid)
  · simp [Manager.addKey, hdup] at h
  · simp only [Manager.addKey, hdup, Bool.false_eq_true, if_false,
      Except.ok.injEq] at h
    subst h
    refine ⟨rfl, ?_⟩
    intro k hk hkid
    exact hdup (List.any_eq_true.mpr ⟨k, hk, by simp [hkid]⟩)

theorem addKey_error_of_dup (m : Manager) (kid : String)
    (h : ∃ k ∈ m.keys, k.kid = kid) : m.addKey kid = .error .duplicateKeyID := by
  obtain ⟨k, hk, hkid⟩ := h
  have : m.keys.any (fun k => k.kid = kid) = true :=
    List.any_eq_true.mpr ⟨k, hk, by simp [hkid]⟩
  simp [Manager.addKey, this]

theorem addKey_ok_of_fresh (m : Manager) (kid : String)
    (h : ∀ k ∈ m.keys, k.kid ≠ kid) :
    m.addKey kid =
      .ok { keys := m.keys ++ [generateKeyPair kid m.nextKey],
            nextKey := m.nextKey + 1 } := by
  have : m.keys.any (fun k => k.kid = kid) = false := by
    rw [List.any_eq_false]
    intro k hk
    simp [h k hk]
  simp [Manager.addKey, this]

theorem applyOp_kidsNodup (m : Manager) (op : Op) (h : kidsNodup m) :
    kidsNodup (applyOp m op) := by
  cases op with
  | add kid =>
    simp only [applyOp]
    cases ha : m.addKey kid with
    | error e => exact h
    | ok m2 =>
      obtain ⟨hkeys, hfresh⟩ := addKey_ok_keys m kid m2 ha
      unfold kidsNodup at h ⊢
      rw [hkeys, List.map_append]
      refine List.Nodup.append h (by simp) ?_
      intro a ha1 ha2
      simp only [generateKeyPair, List.map_cons, List.map_nil,
        List.mem_singleton] at ha2
      subst ha2
      obtain ⟨k, hk, hkid⟩ := List.mem_map.mp ha1
      exact hfresh k hk hkid
  | remove kid =>
    simp only [applyOp]
    cases hr : m.removeKey kid with
    | error e => exact h
    | ok m2 =>
      unfold Manager.removeKey at hr
      by_cases hlen : m.keys.length ≤ 1
      · simp [hlen] at hr
      · simp only [hlen, if_false] at hr
        cases h2 : removeFirstByKid m.keys kid with
        | none => rw [h2] at hr; cases hr
        | some rest =>
          rw [h2] at hr
          simp only [Except.ok.injEq] at hr
          subst hr
          unfold kidsNodup at h ⊢
          exact h.sublist ((removeFirstByKid_sublist m.keys kid rest h2).map _)

theorem applyOp_ne_nil (m : Manager) (op : Op) (h : m.keys ≠ []) :
    (applyOp m op).keys ≠ [] := by
  cases op with
  | add kid =>
    simp only [applyOp]
    cases ha : m.addKey kid with
    | error e => exact h
    | ok m2 =>
      obtain ⟨hkeys, _⟩ := addKey_ok_keys m kid m2 ha
      simp [hkeys]
  | remove kid =>
    simp only [applyOp]
    cases hr : m.removeKey kid with
    | error e => exact h
    | ok m2 =>
      unfold Manager.removeKey at hr
      by_cases hlen : m.keys.length ≤ 1
      · simp [hlen] at hr
      · simp only [hlen, if_false] at hr
        cases h2 : removeFirstByKid m.keys kid with
        | none => rw [h2] at hr; cases hr
        | some rest =>
          rw [h2] at hr
          simp only [Except.ok.injEq] at hr
          subst hr
          have hl := removeFirstByKid_length m.keys kid rest h2
          have hpos : 0 < rest.length := by omega
          exact List.length_pos.mp hpos

theorem runOps_preserve {P : Manager → Prop}
    (hstep : ∀ m op, P m → P (applyOp m op)) :
    ∀ ops m, P m → P (runOps m ops) := by
  intro ops
  induction ops with
  | nil => intro m hm; exact hm
  | cons op rest ih =>
    intro m hm
    exact ih (applyOp m op) (hstep m op hm)

/-- C1: the claim states that a caller-supplied `audience` claim always
wins over the configured audience.  The code contradicts it (and its own
integration tests): `GenerateToken` writes the configured audience over the
caller value unconditionally.  At the failing input, the issued token
carries the configured audience and not the caller value. -/
theorem generateToken_overwrites_caller_audience :
    (generateToken exampleConfig exampleManager 0 1000
        { claims := [("sub", .str "carol"), ("aud", .str "custom-service")],
          expiresIn := none }).map (fun r => getClaim r.token.claims "aud")
      = .ok (some (.str "dev-api")) ∧
    (generateToken exampleConfig exampleManager 0 1000
        { claims := [("sub", .str "carol"), ("aud", .str "custom-service")],
          expiresIn := none }).map (fun r => getClaim r.token.claims "aud")
      ≠ .ok (some (.str "custom-service")) := by
  decide

/-- C2 counterexample: a token that satisfies every condition of the claim
as stated (RS256, resolving key ID, verifying signature, expiration in the
future, matching issuer and audience) is nevertheless judged inactive,
because the library also validates the not-before claim, which the claim
omits. -/
theorem introspect_claim_condition_counterexample :
    claimActiveCondition exampleConfig exampleManager 1000
        (.wellFormed exampleNbfToken) = true ∧
    (introspect exampleConfig exampleManager 1000
        (.wellFormed exampleNbfToken)).2.active = false := by
  decide

/-- C3 counterexample: initializing the store with a duplicated ID list is
accepted by `GenerateKeys` without deduplication, so the reachable state
right after initialization already violates pairwise distinctness. -/
theorem duplicate_init_ids_counterexample :
    ¬ kidsNodup (runOps (newManager.generateKeys ["a", "a"]) []) := by
  unfold kidsNodup
  decide

/-- C3 (amended): for every state reached by initializing with an ID list
and then applying any sequence of add and remove operations, the key IDs
are pairwise distinct provided the initial ID list was duplicate-free, and
the store is non-empty provided initialization supplied at least one ID. -/
theorem keyStore_reachable_invariants (ids : List String) (ops : List Op) :
    (ids.Nodup → kidsNodup (runOps (newManager.generateKeys ids) ops)) ∧
    (ids ≠ [] → (runOps (newManager.generateKeys ids) ops).keys ≠ []) := by
  constructor
  · intro hnd
    refine runOps_preserve applyOp_kidsNodup ops _ ?_
    unfold kidsNodup Manager.generateKeys
    simpa [generateKeysList_map_kid] using hnd
  · intro hne
    refine runOps_preserve applyOp_ne_nil ops _ ?_
    intro h
    apply hne
    have hlen := generateKeysList_length ids newManager.nextKey
    rw [show (newManager.generateKeys ids).keys
          = generateKeysList ids newManager.nextKey from rfl] at h
    rw [h] at hlen
    exact List.length_eq_zero.mp hlen.symm

/-- Witness for C3 at a concrete duplicate-free initialization and a
concrete operation sequence. -/
theorem keyStore_reachable_invariants_witness :
    kidsNodup (runOps (newManager.generateKeys ["a", "b"])
      [.add "c", .remove "a"]) ∧
    (runOps (newManager.generateKeys ["a", "b"])
      [.add "c", .remove "a"]).keys ≠ [] :=
  ⟨(keyStore_reachable_invariants ["a", "b"] [.add "c", .remove "a"]).1 (by decide),
   (keyStore_reachable_invariants ["a", "b"] [.add "c", .remove "a"]).2 (by decide)⟩

/-- C5 counterexample: with a single stored key `k1`, removing the absent
ID `k2` fails with the last-key protection error and not with the missing
key error the claim requires, because the Go code tests the store size
before looking the ID up. -/
theorem removeKey_missing_id_counterexample :
    exampleManager.removeKey "k2" = .error .lastKeyProtected ∧
    (∀ k ∈ exampleManager.keys, k.kid ≠ "k2") ∧
    exampleManager.removeKey "k2" ≠ .error .keyNotFound := by
  decide

/-- C5 (amended): removal fails with the last-key protection error whenever
the store holds at most one key, regardless of whether the ID exists; with
at least two keys it fails with the missing-key error when no key has the
ID, and otherwise removes exactly the first key with that ID; every failure
leaves the store unchanged. -/
theorem removeKey_order_of_checks (m : Manager) (kid : String) :
    (m.keys.length ≤ 1 → m.removeKey kid = .error .lastKeyProtected) ∧
    (2 ≤ m.keys.length → (∀ k ∈ m.keys, k.kid ≠ kid) →
       m.removeKey kid = .error .keyNotFound) ∧
    (2 ≤ m.keys.length → ∀ pre kk post, m.keys = pre ++ kk :: post →
       kk.kid = kid → (∀ p ∈ pre, p.kid ≠ kid) →
       m.removeKey kid = .ok { m with keys := pre ++ post }) ∧
    (∀ e, m.removeKey kid = .error e → applyOp m (.remove kid) = m) := by
  refine ⟨?_, ?_, ?_, ?_⟩
  · intro h
    simp [Manager.removeKey, h]
  · intro h2 hall
    have hnone := (removeFirstByKid_none_iff m.keys kid).mpr hall
    have hgt : ¬ m.keys.length ≤ 1 := by omega
    simp [Manager.removeKey, hgt, hnone]
  · intro h2 pre kk post hks hkk hpre
    have hgt : ¬ m.keys.length ≤ 1 := by omega
    simp only [Manager.removeKey, hgt, if_false]
    rw [hks, removeFirstByKid_of_decomp pre kk post kid hkk hpre]
  · intro e he
    simp [applyOp, he]

/-- Witness for C5 at a concrete two-key store: removing the first key
succeeds and leaves exactly the second key. -/
theorem removeKey_order_of_checks_witness :
    exampleManager2.removeKey "k1"
      = .ok { exampleManager2 with
              keys := [] ++ [{ kid := "k2", privateKey := 1 }] } :=
  (removeKey_order_of_checks exampleManager2 "k1").2.2.1 (by decide)
    [] { kid := "k1", privateKey := 0 } [{ kid := "k2", privateKey := 1 }]
    (by decide) (by decide) (by decide)

/-- C9: adding a duplicate ID fails with the duplicate error and leaves the
store unchanged; adding a fresh ID appends exactly one new key pair carrying
that ID at the end of the collection, all existing keys untouched. -/
theorem addKey_spec (m : Manager) (kid : String) :
    ((∃ k ∈ m.keys, k.kid = kid) →
       m.addKey kid = .error .duplicateKeyID ∧ applyOp m (.add kid) = m) ∧
    ((∀ k ∈ m.keys, k.kid ≠ kid) →
       ∃ m2 kp, m.addKey kid = .ok m2 ∧ m2.keys = m.keys ++ [kp] ∧
         kp.kid = kid) := by
  constructor
  · intro h
    have he := addKey_error_of_dup m kid h
    exact ⟨he, by simp [applyOp, he]⟩
  · intro h
    exact ⟨_, generateKeyPair kid m.nextKey, addKey_ok_of_fresh m kid h, rfl, rfl⟩

/-- Witness for C9: duplicate rejection at the concrete one-key store and a
successful append of a fresh ID. -/
theorem addKey_spec_witness :
    (exampleManager.addKey "k1" = .error .duplicateKeyID ∧
      applyOp exampleManager (.add "k1") = exampleManager) ∧
    (∃ m2 kp, exampleManager.addKey "k9" = .ok m2 ∧
      m2.keys = exampleManager.keys ++ [kp] ∧ kp.kid = "k9") :=
  ⟨(addKey_spec exampleManager "k1").1 (by decide),
   (addKey_spec exampleManager "k9").2 (by decide)⟩

/-- C10: the random-selection error is returned exactly on the empty store;
on a non-empty store the drawn index is strictly below the key count and
the returned key pair is an element of the collection. -/
theorem getRandomKey_spec (m : Manager) (seed : Nat) :
    (m.getRandomKey seed = .error .noKeysAvailable ↔ m.keys = []) ∧
    (m.keys ≠ [] →
      randInt seed m.keys.length < m.keys.length ∧
      ∃ kp, m.getRandomKey seed = .ok kp ∧ kp ∈ m.keys) := by
  constructor
  · constructor
    · intro h
      by_cases hlen : m.keys.length = 0
      · exact List.length_eq_zero.mp hlen
      · simp [Manager.getRandomKey, hlen] at h
    · intro h
      have hlen : m.keys.length = 0 := by simp [h]
      simp [Manager.getRandomKey, hlen]
  · intro h
    have hlen : m.keys.length ≠ 0 := by
      intro h0
      exact h (List.length_eq_zero.mp h0)
    refine ⟨Nat.mod_lt seed (Nat.pos_of_ne_zero hlen),
      ⟨m.keys.get ⟨randInt seed m.keys.length,
          Nat.mod_lt seed (Nat.pos_of_ne_zero hlen)⟩, ?_, List.get_mem ..⟩⟩
    simp [Manager.getRandomKey, hlen]

/-- Witness for C10 at the concrete one-key store. -/
theorem getRandomKey_spec_witness :
    randInt 5 exampleManager.keys.length < exampleManager.keys.length ∧
    ∃ kp, exampleManager.getRandomKey 5 = .ok kp ∧ kp ∈ exampleManager.keys :=
  (getRandomKey_spec exampleManager 5).2 (by decide)

theorem marshal_inactive :
    marshalIntrospection { active := false } = [("active", .boolean false)] := by
  decide

/-- C6: introspection of the empty token string yields status 200 and a
response that marshals to exactly one field, active false; introspection is
total, every input including malformed ones yields status 200, and every
inactive outcome marshals to exactly that single field. -/
theorem introspect_empty_and_total (cfg : Config) (m : Manager) (now : Int) :
    introspect cfg m now .emptyStr = (200, { active := false }) ∧
    marshalIntrospection (introspect cfg m now .emptyStr).2
      = [("active", .boolean false)] ∧
    (∀ input, (introspect cfg m now input).1 = 200) ∧
    (∀ input, (introspect cfg m now input).2.active = true ∨
       marshalIntrospection (introspect cfg m now input).2
         = [("active", .boolean false)]) := by
  refine ⟨rfl, marshal_inactive, ?_, ?_⟩
  · intro input
    cases input with
    | emptyStr => rfl
    | malformed => rfl
    | wellFormed t =>
      simp only [introspect]
      split
      · rfl
      · split <;> rfl
  · intro input
    cases input with
    | emptyStr => exact Or.inr marshal_inactive
    | malformed => exact Or.inr marshal_inactive
    | wellFormed t =>
      simp only [introspect]
      split
      · exact Or.inr marshal_inactive
      · split
        · exact Or.inr marshal_inactive
        · exact Or.inl rfl

/-- C7: for every issue request on a non-empty store, issuance succeeds,
the effective lifetime is the requested one when present (zero and negative
values included, no validation) and 3600 otherwise, and the issued token
carries expiration equal to issuance time plus the effective lifetime. -/
theorem generateToken_lifetime_spec (cfg : Config) (m : Manager) (seed : Nat)
    (now : Int) (req : TokenRequest) (h : m.keys ≠ []) :
    ∃ r, generateToken cfg m seed now req = .ok r ∧
      r.expiresIn = req.expiresIn.getD 3600 ∧
      getClaim r.token.claims "iat" = some (.num now) ∧
      getClaim r.token.claims "exp"
        = some (.num (now + req.expiresIn.getD 3600)) := by
  have hlen : m.keys.length ≠ 0 := by
    intro h0
    exact h (List.length_eq_zero.mp h0)
  obtain ⟨kp, hkp⟩ : ∃ kp, m.getRandomKey seed = .ok kp := by
    unfold Manager.getRandomKey
    rw [dif_neg hlen]
    exact ⟨_, rfl⟩
  refine ⟨{ token := { alg := "RS256", kid := some kp.kid,
                       claims := buildJwtClaims cfg req.claims defaultClaims now
                         (req.expiresIn.getD 3600),
                       sigAlg := "RS256", sigKey := kp.privateKey },
            expiresIn := req.expiresIn.getD 3600, keyID := kp.kid },
    ?_, rfl, buildJwtClaims_iat .., buildJwtClaims_exp ..⟩
  unfold generateToken
  rw [hkp]
  rfl

/-- Witness for C7 at a concrete negative requested lifetime, accepted
without validation. -/
theorem generateToken_lifetime_spec_witness :
    ∃ r, generateToken exampleConfig exampleManager 7 1000
        { claims := [("sub", .str "bob")], expiresIn := some (-5) } = .ok r ∧
      r.expiresIn = (some (-5 : Int)).getD 3600 ∧
      getClaim r.token.claims "iat" = some (.num 1000) ∧
      getClaim r.token.claims "exp"
        = some (.num (1000 + (some (-5 : Int)).getD 3600)) :=
  generateToken_lifetime_spec exampleConfig exampleManager 7 1000
    { claims := [("sub", .str "bob")], expiresIn := some (-5) } (by decide)

theorem getKeyByID_ok_mem (m : Manager) (kid : String) (kp : KeyPair)
    (h : m.getKeyByID kid = .ok kp) : kp ∈ m.keys := by
  unfold Manager.getKeyByID at h
  cases hf : m.keys.find? (fun k => k.kid = kid) with
  | none => rw [hf] at h; cases h
  | some k =>
    rw [hf] at h
    cases h
    exact List.mem_of_find?_eq_some hf

theorem jwtVerify_eq_some_iff (m : Manager) (now : Int) (t : Token)
    (cs : Claims) :
    jwtVerify m now t = some cs ↔
      (cs = t.claims ∧ isRSAAlg t.alg = true ∧
       ∃ kid keyPair, t.kid = some kid ∧ m.getKeyByID kid = .ok keyPair ∧
         sigVerifies t (publicKeyOf keyPair) = true ∧
         expClaimOk t.claims now = true ∧ nbfClaimOk t.claims now = true) := by
  constructor
  · intro h
    unfold jwtVerify at h
    split at h
    next hrsa =>
      split at h
      next hkid => cases h
      next kid hkid =>
        split at h
        next e hget => cases h
        next keyPair hget =>
          split at h
          next hsig =>
            split at h
            next hval =>
              obtain ⟨hexp, hnbf⟩ := by simpa using hval
              cases h
              exact ⟨rfl, hrsa, kid, keyPair, hkid, hget, hsig, hexp, hnbf⟩
            next hval => cases h
          next hsig => cases h
    next hrsa => cases h
  · rintro ⟨rfl, hrsa, kid, keyPair, hkid, hget, hsig, hexp, hnbf⟩
    simp [jwtVerify, hrsa, hkid, hget, hsig, hexp, hnbf]

/-- C2 (amended): the introspection result is active exactly when the token
is structurally well formed, declares one of the RSA signing methods
accepted by the keyfunc, its header key ID resolves in the Key Store, its
signature verifies under the public key of the resolved key, its expiration
claim — when present — lies in the future, its not-before claim — when
present — does not lie in the future, and its issuer and audience claims
equal the configured strings; the status is always 200 and every other case
yields the bare inactive response carrying no failure reason. -/
theorem introspect_active_iff (cfg : Config) (m : Manager) (now : Int)
    (input : TokenStr) :
    ((introspect cfg m now input).2.active = true ↔
      ∃ t, input = TokenStr.wellFormed t ∧ isRSAAlg t.alg = true ∧
        (∃ kid keyPair, t.kid = some kid ∧ m.getKeyByID kid = .ok keyPair ∧
          sigVerifies t (publicKeyOf keyPair) = true) ∧
        expClaimOk t.claims now = true ∧ nbfClaimOk t.claims now = true ∧
        getClaim t.claims "iss" = some (.str cfg.issuer) ∧
        getClaim t.claims "aud" = some (.str cfg.audience)) ∧
    ((introspect cfg m now input).1 = 200) ∧
    ((introspect cfg m now input).2.active = true ∨
      (introspect cfg m now input).2 = { active := false }) := by
  refine ⟨?_, ?_, ?_⟩
  · cases input with
    | emptyStr => simp [introspect]
    | malformed => simp [introspect]
    | wellFormed t =>
      simp only [introspect]
      constructor
      · intro h
        split at h
        next hveq => simp at h
        next cs hveq =>
          split at h
          next hcond => simp at h
          next hcond =>
            push_neg at hcond
            obtain ⟨hiss, haud⟩ := hcond
            obtain ⟨hcs, hrsa, kid, keyPair, hkid, hget, hsig, hexp, hnbf⟩ :=
              (jwtVerify_eq_some_iff m now t cs).mp hveq
            subst hcs
            exact ⟨t, rfl, hrsa, ⟨kid, keyPair, hkid, hget, hsig⟩,
              hexp, hnbf, hiss, haud⟩
      · rintro ⟨t2, ht2, hrsa, ⟨kid, keyPair, hkid, hget, hsig⟩,
          hexp, hnbf, hiss, haud⟩
        injection ht2 with ht2e
        subst ht2e
        have hv : jwtVerify m now t = some t.claims :=
          (jwtVerify_eq_some_iff m now t t.claims).mpr
            ⟨rfl, hrsa, kid, keyPair, hkid, hget, hsig, hexp, hnbf⟩
        simp [hv, hiss, haud]
  · cases input with
    | emptyStr => rfl
    | malformed => rfl
    | wellFormed t =>
      simp only [introspect]
      split
      · rfl
      · split <;> rfl
  · cases input with
    | emptyStr => exact Or.inr rfl
    | malformed => exact Or.inr rfl
    | wellFormed t =>
      simp only [introspect]
      split
      · exact Or.inr rfl
      · split
        · exact Or.inr rfl
        · exact Or.inl rfl

/-- Witness for C2: a concrete well-formed, correctly signed and unexpired
token with matching issuer and audience is judged active. -/
theorem introspect_active_iff_witness :
    (introspect exampleConfig exampleManager 1000
        (.wellFormed exampleScopeToken)).2.active = true :=
  ((introspect_active_iff exampleConfig exampleManager 1000
      (.wellFormed exampleScopeToken)).1).mpr
    ⟨exampleScopeToken, rfl, by decide,
      ⟨"k1", { kid := "k1", privateKey := 0 }, rfl, by decide, by decide⟩,
      by decide, by decide, by decide, by decide⟩

theorem mem_marshal_passthrough (r : IntrospectionResponse) (k : String)
    (v : JsonValue) (hmem : (k, v) ∈ r.claims)
    (hnstd : standardFields.contains k = false) :
    (k, v) ∈ marshalIntrospection r := by
  unfold marshalIntrospection
  refine List.mem_append.mpr (Or.inr ?_)
  refine List.mem_filter.mpr ⟨hmem, ?_⟩
  show (!standardFields.contains k) = true
  rw [hnstd]
  rfl

theorem mem_marshalStd_of_mem_marshal (r : IntrospectionResponse)
    (k : String) (v : JsonValue) (hmem : (k, v) ∈ marshalIntrospection r)
    (hstd : standardFields.contains k = true) : (k, v) ∈ marshalStd r := by
  unfold marshalIntrospection at hmem
  rcases List.mem_append.mp hmem with hm | hm
  · exact hm
  · obtain ⟨_, hpred⟩ := List.mem_filter.mp hm
    have hpk : (!standardFields.contains k) = true := hpred
    cases hb : standardFields.contains k with
    | false => rw [hb] at hstd; cases hstd
    | true => rw [hb] at hpk; cases hpk

theorem introspect_active_response (cfg : Config) (m : Manager) (now : Int)
    (t : Token) (h : (introspect cfg m now (.wellFormed t)).2.active = true) :
    (introspect cfg m now (.wellFormed t)).2 =
      { active := true, tokenType := "Bearer",
        username := strClaim t.claims "sub",
        exp := numClaim t.claims "exp", iat := numClaim t.claims "iat",
        nbf := numClaim t.claims "nbf", sub := strClaim t.claims "sub",
        aud := strClaim t.claims "aud", iss := strClaim t.claims "iss",
        jti := strClaim t.claims "jti", claims := t.claims } := by
  simp only [introspect] at h ⊢
  split at h
  next hveq => simp at h
  next cs hveq =>
    split at h
    next hcond => simp at h
    next hcond =>
      obtain ⟨hcs, _, _⟩ := (jwtVerify_eq_some_iff m now t cs).mp hveq
      subst hcs
      rw [if_neg hcond]

/-- C8 counterexample: an active token whose payload carries a `scope`
claim; the claim is not promoted (the introspection code never populates
the scope field) and not passed through (its name is reserved in the
marshalling step), so it is absent from the result, contradicting the claim
that every payload claim appears. -/
theorem introspect_scope_claim_dropped_counterexample :
    (introspect exampleConfig exampleManager 1000
        (.wellFormed exampleScopeToken)).2.active = true ∧
    ("scope", JsonValue.str "read") ∈ exampleScopeToken.claims ∧
    ((marshalIntrospection (introspect exampleConfig exampleManager 1000
        (.wellFormed exampleScopeToken)).2).all
      (fun p => p.1 != "scope")) = true := by
  decide

/-- C8 (amended): for every active introspection result, the standard
claims are promoted to the well-known fields when of the expected type,
the username field is copied from the subject claim, every payload claim
whose name is outside the reserved response-field set is passed through
unchanged, and every reserved-name field of the output originates from the
well-known fields, never from a payload claim. -/
theorem introspect_active_claims_passthrough (cfg : Config) (m : Manager)
    (now : Int) (t : Token)
    (h : (introspect cfg m now (.wellFormed t)).2.active = true) :
    (introspect cfg m now (.wellFormed t)).2.claims = t.claims ∧
    (introspect cfg m now (.wellFormed t)).2.tokenType = "Bearer" ∧
    (introspect cfg m now (.wellFormed t)).2.sub = strClaim t.claims "sub" ∧
    (introspect cfg m now (.wellFormed t)).2.username
      = strClaim t.claims "sub" ∧
    (introspect cfg m now (.wellFormed t)).2.exp = numClaim t.claims "exp" ∧
    (introspect cfg m now (.wellFormed t)).2.iat = numClaim t.claims "iat" ∧
    (introspect cfg m now (.wellFormed t)).2.nbf = numClaim t.claims "nbf" ∧
    (introspect cfg m now (.wellFormed t)).2.aud = strClaim t.claims "aud" ∧
    (introspect cfg m now (.wellFormed t)).2.iss = strClaim t.claims "iss" ∧
    (introspect cfg m now (.wellFormed t)).2.jti = strClaim t.claims "jti" ∧
    (∀ k v, (k, v) ∈ t.claims → standardFields.contains k = false →
       (k, v) ∈ marshalIntrospection (introspect cfg m now (.wellFormed t)).2) ∧
    (∀ k v, (k, v) ∈ marshalIntrospection
          (introspect cfg m now (.wellFormed t)).2 →
       standardFields.contains k = true →
       (k, v) ∈ marshalStd (introspect cfg m now (.wellFormed t)).2) := by
  have hr := introspect_active_response cfg m now t h
  rw [hr]
  refine ⟨rfl, rfl, rfl, rfl, rfl, rfl, rfl, rfl, rfl, rfl, ?_, ?_⟩
  · intro k v hmem hnstd
    exact mem_marshal_passthrough _ k v hmem hnstd
  · intro k v hmem hstd
    exact mem_marshalStd_of_mem_marshal _ k v hmem hstd

/-- Witness for C8: the custom `role` claim of the concrete active token is
passed through to the marshalled result. -/
theorem introspect_active_claims_passthrough_witness :
    ("role", JsonValue.str "admin") ∈ marshalIntrospection
      (introspect exampleConfig exampleManager 1000
        (.wellFormed exampleScopeToken)).2 :=
  ((introspect_active_claims_passthrough exampleConfig exampleManager 1000
      exampleScopeToken (by decide)).2.2.2.2.2.2.2.2.2.2.1)
    "role" (JsonValue.str "admin") (by decide) (by decide)

/-- C4: on a non-empty store satisfying the key-generation freshness
invariant, the deliberately invalid issuance succeeds, leaves the store
unchanged (the throwaway key is never added), embeds the ID of a stored key
in the header, and yet the signature does not verify against the stored key
resolved by that ID; full verification of the produced token fails. -/
theorem generateInvalidToken_spec (cfg : Config) (m : Manager) (seed : Nat)
    (now : Int) (req : TokenRequest) (hfresh : freshInv m)
    (h : m.keys ≠ []) :
    ∃ r, generateInvalidToken cfg m seed now req = .ok (r, m) ∧
      ∃ kid, r.token.kid = some kid ∧ kid ∈ m.getAllKeyIDs ∧
        (∀ keyPair, m.getKeyByID kid = .ok keyPair →
           sigVerifies r.token (publicKeyOf keyPair) = false) ∧
        jwtVerify m now r.token = none := by
  have hlen : m.keys.length ≠ 0 := by
    intro h0
    exact h (List.length_eq_zero.mp h0)
  obtain ⟨kp, hkp, hkpmem⟩ :
      ∃ kp, m.getRandomKey seed = .ok kp ∧ kp ∈ m.keys := by
    unfold Manager.getRandomKey
    rw [dif_neg hlen]
    exact ⟨_, rfl, List.get_mem ..⟩
  refine ⟨{ token := { alg := "RS256", kid := some kp.kid,
                       claims := buildJwtClaims cfg req.claims
                         defaultInvalidClaims now (req.expiresIn.getD 3600),
                       sigAlg := "RS256", sigKey := m.nextKey },
            expiresIn := req.expiresIn.getD 3600, keyID := kp.kid },
    ?_, kp.kid, rfl, ?_, ?_, ?_⟩
  · unfold generateInvalidToken
    rw [hkp]
    rfl
  · exact List.mem_map.mpr ⟨kp, hkpmem, rfl⟩
  · intro keyPair hget
    have hmem := getKeyByID_ok_mem m kp.kid keyPair hget
    have hlt := hfresh keyPair hmem
    simp only [sigVerifies, publicKeyOf]
    simp only [Bool.and_eq_false_iff]
    right
    simp only [decide_eq_false_iff_not]
    omega
  · cases hget : m.getKeyByID kp.kid with
    | error e => simp [jwtVerify, hget]
    | ok keyPair =>
      have hmem := getKeyByID_ok_mem m kp.kid keyPair hget
      have hlt := hfresh keyPair hmem
      have hsf : (m.nextKey = keyPair.privateKey) = False := by
        simp only [eq_iff_iff, iff_false]
        omega
      simp [jwtVerify, hget, sigVerifies, publicKeyOf, hsf]

/-- Witness for C4 at the concrete one-key store, which satisfies the
freshness invariant. -/
theorem generateInvalidToken_spec_witness :
    ∃ r, generateInvalidToken exampleConfig exampleManager 0 1000
        { claims := [], expiresIn := none } = .ok (r, exampleManager) ∧
      ∃ kid, r.token.kid = some kid ∧ kid ∈ exampleManager.getAllKeyIDs ∧
        (∀ keyPair, exampleManager.getKeyByID kid = .ok keyPair →
           sigVerifies r.token (publicKeyOf keyPair) = false) ∧
        jwtVerify exampleManager 1000 r.token = none :=
  generateInvalidToken_spec exampleConfig exampleManager 0 1000
    { claims := [], expiresIn := none }
    (by unfold freshInv; decide) (by decide)

theorem generateKeys_freshInv (m : Manager) (ids : List String) :
    freshInv (m.generateKeys ids) := by
  intro kp hkp
  have := generateKeysList_priv_lt ids m.nextKey kp hkp
  simpa [Manager.generateKeys] using this

theorem applyOp_freshInv (m : Manager) (op : Op) (h : freshInv m) :
    freshInv (applyOp m op) := by
  cases op with
  | add kid =>
    simp only [applyOp]
    cases ha : m.addKey kid with
    | error e => exact h
    | ok m2 =>
      by_cases hdup : m.keys.any (fun k => k.kid = kid)
      · simp [Manager.addKey, hdup] at ha
      · simp only [Manager.addKey, hdup, Bool.false_eq_true, if_false,
          Except.ok.injEq] at ha
        subst ha
        intro kp hkp
        simp only [List.mem_append, List.mem_singleton] at hkp
        rcases hkp with hm | hm
        · have := h kp hm
          simp only
          omega
        · subst hm
          simp [generateKeyPair]
  | remove kid =>
    simp only [applyOp]
    cases hr : m.removeKey kid with
    | error e => exact h
    | ok m2 =>
      unfold Manager.removeKey at hr
      by_cases hlen : m.keys.length ≤ 1
      · simp [hlen] at hr
      · simp only [hlen, if_false] at hr
        cases h2 : removeFirstByKid m.keys kid with
        | none => rw [h2] at hr; cases hr
        | some rest =>
          rw [h2] at hr
          simp only [Except.ok.injEq] at hr
          subst hr
          intro kp hkp
          exact h kp
            ((removeFirstByKid_sublist m.keys kid rest h2).subset hkp)

theorem runOps_freshInv (ids : List String) (ops : List Op) :
    freshInv (runOps (newManager.generateKeys ids) ops) :=
  runOps_preserve applyOp_freshInv ops _ (generateKeys_freshInv newManager ids)

end JwksMock
